/-
Verification of the autotagging core in `beets/autotag/__init__.py`.

All floating-point arithmetic of the source is embedded into `ℚ`.
Python strings are Lean `String`s; the six fixed regular expressions of
`SD_PATTERNS` are embedded through a small backtracking regex engine
(`Re`, `reMatch`, `reSubGo`) reproducing Python's `re.sub(pat, '', s)`
semantics for these patterns: leftmost scanning, alternation tried left
to right, greedy `?`, greedy `.+`, lazy `.*?`, and `^` matching only at
the start of the string.
-/
import Mathlib

namespace Autotag

/-! ## Distance constants (`beets/autotag/__init__.py`, lines 31-79) -/

def MAX_CANDIDATES : Nat := 5

def ARTIST_WEIGHT : ℚ := 3
def ALBUM_WEIGHT : ℚ := 3
def TRACK_WEIGHT : ℚ := 1
def TRACK_TITLE_WEIGHT : ℚ := 3
def TRACK_ARTIST_WEIGHT : ℚ := 2
def TRACK_INDEX_WEIGHT : ℚ := 1
def TRACK_LENGTH_GRACE : ℚ := 10
def TRACK_LENGTH_MAX : ℚ := 30
def TRACK_LENGTH_WEIGHT : ℚ := 2
def TRACK_ID_WEIGHT : ℚ := 5

def STRONG_REC_THRESH : ℚ := 4/100
def MEDIUM_REC_THRESH : ℚ := 25/100
def REC_GAP_THRESH : ℚ := 25/100

def SD_END_WORDS : List String := ["the", "a", "an"]

def VA_ARTISTS : List String := ["", "various artists", "va", "unknown"]

/-! ## Regex engine

Abstract syntax covering exactly the constructs used by `SD_PATTERNS`:
literals, character classes, concatenation, alternation, greedy `?`,
the start anchor `^`, greedy `.+` and lazy `.*?` (`.` excludes `'\n'`). -/

inductive Re where
  | lit : List Char → Re
  | cls : List Char → Re
  | cat : Re → Re → Re
  | alt : Re → Re → Re
  | opt : Re → Re
  | bol : Re
  | dotPlus : Re
  | dotStarLazy : Re
deriving DecidableEq, Repr

/-- All ways the regex can match a prefix of `s`, in Python backtracking
priority order; each result is the pair of the flag "still at string
start" and the remaining suffix.  The head of the list is the match the
Python engine commits to. -/
def reMatch : Re → Bool → List Char → List (Bool × List Char)
  | Re.lit cs, b, s =>
    if s.take cs.length = cs then [(if cs = [] then b else false, s.drop cs.length)] else []
  | Re.cls cs, _, s =>
    match s with
    | [] => []
    | c :: tl => if c ∈ cs then [(false, tl)] else []
  | Re.cat r1 r2, b, s =>
    (reMatch r1 b s).flatMap (fun p => reMatch r2 p.1 p.2)
  | Re.alt r1 r2, b, s => reMatch r1 b s ++ reMatch r2 b s
  | Re.opt r, b, s => reMatch r b s ++ [(b, s)]
  | Re.bol, b, s => if b then [(b, s)] else []
  | Re.dotPlus, _, s =>
    let m := (s.takeWhile (fun c => c != '\n')).length
    (List.range m).map (fun j => (false, s.drop (m - j)))
  | Re.dotStarLazy, b, s =>
    let m := (s.takeWhile (fun c => c != '\n')).length
    (List.range (m + 1)).map (fun k => (if k = 0 then b else false, s.drop k))

/-- `re.sub(pat, '', s)`: scan left to right; at each position commit to
the engine's first match; a nonempty match is deleted and scanning
resumes after it, otherwise the current character is kept.  Fuel is the
string length plus one, enough for the whole scan. -/
def reSubGo (r : Re) : List Char → Bool → Nat → List Char
  | s, _, 0 => s
  | s, atStart, n + 1 =>
    match (reMatch r atStart s).head? with
    | some pr =>
      if pr.2.length < s.length then reSubGo r pr.2 false n
      else
        match s with
        | [] => []
        | c :: tl => c :: reSubGo r tl false n
    | none =>
      match s with
      | [] => []
      | c :: tl => c :: reSubGo r tl false n

def reSubStr (r : Re) (s : String) : String :=
  String.mk (reSubGo r s.data true (s.data.length + 1))

/-- Modelled from the spec: "a' = a with first regex match removed" —
the same scan as `reSubGo` but stopping after the first match, so any
later occurrence of the pattern is retained. -/
def reSubFirstGo (r : Re) : Nat → List Char → Bool → List Char
  | 0, s, _ => s
  | n + 1, s, atStart =>
    match (reMatch r atStart s).head? with
    | some pr => if pr.2.length < s.length then pr.2 else s
    | none =>
      match s with
      | [] => []
      | c :: tl => c :: reSubFirstGo r n tl false

def reSubFirstStr (r : Re) (s : String) : String :=
  String.mk (reSubFirstGo r (s.data.length + 1) s.data true)

/-- Number of pattern matches committed during the `reSubGo` scan. -/
def countMatchesGo (r : Re) : List Char → Bool → Nat → Nat
  | _, _, 0 => 0
  | s, atStart, n + 1 =>
    match (reMatch r atStart s).head? with
    | some pr =>
      if pr.2.length < s.length then 1 + countMatchesGo r pr.2 false n
      else
        match s with
        | [] => 1
        | _ :: tl => 1 + countMatchesGo r tl false n
    | none =>
      match s with
      | [] => 0
      | _ :: tl => countMatchesGo r tl false n

def countMatchesStr (r : Re) (s : String) : Nat :=
  countMatchesGo r s.data true (s.data.length + 1)

/-! ## The fixed pattern table (`SD_PATTERNS`, lines 69-76) -/

/-- `^the ` -/
def sdPat1 : Re := Re.cat Re.bol (Re.lit "the ".data)

/-- `[\[\(]?(ep|single)[\]\)]?` -/
def sdPat2 : Re :=
  Re.cat (Re.opt (Re.cls ['[', '(']))
    (Re.cat (Re.alt (Re.lit "ep".data) (Re.lit "single".data))
      (Re.opt (Re.cls [']', ')'])))

/-- `[\[\(]?(featuring|feat|ft)[\. :].+` -/
def sdPat3 : Re :=
  Re.cat (Re.opt (Re.cls ['[', '(']))
    (Re.cat (Re.alt (Re.lit "featuring".data) (Re.alt (Re.lit "feat".data) (Re.lit "ft".data)))
      (Re.cat (Re.cls ['.', ' ', ':']) Re.dotPlus))

/-- `\(.*?\)` -/
def sdPat4 : Re := Re.cat (Re.lit ['(']) (Re.cat Re.dotStarLazy (Re.lit [')']))

/-- `\[.*?\]` -/
def sdPat5 : Re := Re.cat (Re.lit ['[']) (Re.cat Re.dotStarLazy (Re.lit [']']))

/-- `(, )?(pt\.|part) .+` -/
def sdPat6 : Re :=
  Re.cat (Re.opt (Re.lit [',', ' ']))
    (Re.cat (Re.alt (Re.lit "pt.".data) (Re.lit "part".data))
      (Re.cat (Re.lit [' ']) Re.dotPlus))

def SD_PATTERNS : List (Re × ℚ) :=
  [(sdPat1, 1/10), (sdPat2, 0), (sdPat3, 1/10), (sdPat4, 3/10), (sdPat5, 3/10), (sdPat6, 2/10)]

/-! ## String distance (`_string_dist_basic`, `string_dist`, lines 111-167) -/

/-- Modelled from the spec: `beets.util.levenshtein` (the `beets.util`
module is not part of the provided sources) — the standard edit
distance between two character lists. -/
def levenshtein : List Char → List Char → Nat
  | [], t => t.length
  | s, [] => s.length
  | a :: s, b :: t =>
    if a = b then levenshtein s t
    else 1 + min (levenshtein (a :: s) t) (min (levenshtein s (b :: t)) (levenshtein s t))
termination_by s t => s.length + t.length
decreasing_by all_goals simp_arith

def isLowerAlnum (c : Char) : Bool :=
  ('a' ≤ c && c ≤ 'z') || ('0' ≤ c && c ≤ '9')

/-- `str.lower()` followed by `re.sub(r'[^a-z0-9]', '', .)`. -/
def normalizeChars (s : String) : List Char :=
  s.toLower.data.filter isLowerAlnum

def _string_dist_basic (str1 str2 : String) : ℚ :=
  let a := normalizeChars str1
  let b := normalizeChars str2
  if a = [] ∧ b = [] then 0
  else (levenshtein a b : ℚ) / (max a.length b.length : ℚ)

/-- One `SD_END_WORDS` rewrite: `"something, the"` becomes `"the something"`. -/
def sdEndWordRotate (s w : String) : String :=
  if s.endsWith (", " ++ w) then w ++ " " ++ s.dropRight (w.length + 2) else s

def sdRotate (s : String) : String :=
  SD_END_WORDS.foldl sdEndWordRotate s

/-- The pattern loop of `string_dist` (lines 144-164).  State is
`(str1, str2, base_dist, penalty)`. -/
def sdLoop : List (Re × ℚ) → String × String × ℚ × ℚ → String × String × ℚ × ℚ
  | [], st => st
  | (pat, weight) :: rest, (s1, s2, base, pen) =>
    let case_str1 := reSubStr pat s1
    let case_str2 := reSubStr pat s2
    if case_str1 ≠ s1 ∨ case_str2 ≠ s2 then
      let case_dist := _string_dist_basic case_str1 case_str2
      let case_delta := max 0 (base - case_dist)
      if case_delta = 0 then sdLoop rest (s1, s2, base, pen)
      else sdLoop rest (case_str1, case_str2, case_dist, pen + weight * case_delta)
    else sdLoop rest (s1, s2, base, pen)

def string_dist (str1 str2 : String) : ℚ :=
  let s1 := sdRotate str1.toLower
  let s2 := sdRotate str2.toLower
  let st := sdLoop SD_PATTERNS (s1, s2, _string_dist_basic s1 s2, 0)
  st.2.2.1 + st.2.2.2

/-! ## Data model

`Item` is the observed file's mutable tag data (the fields that the
autotag module reads or writes); a missing track index or MusicBrainz
ID is the falsy value (`0` resp. `""`), as in the source.  `TrackInfo`
and `AlbumInfo` are the catalog dictionaries; keys that may be absent
(`'length'`, `'artist'`, `'artist_id'`, `'year'`, ...) are `Option`s. -/

structure Item where
  artist : String
  albumartist : String
  album : String
  title : String
  track : Nat
  tracktotal : Nat
  length : ℚ
  year : Nat
  month : Nat
  day : Nat
  mb_trackid : String
  mb_albumid : String
  mb_artistid : String
  mb_albumartistid : String
  albumtype : String
  comp : Bool
deriving DecidableEq, Repr, Inhabited

structure TrackInfo where
  id : String
  title : String
  artist : Option String
  artist_id : Option String
  length : Option ℚ
deriving DecidableEq, Repr, Inhabited

structure AlbumInfo where
  album_id : String
  album : String
  artist : String
  artist_id : String
  year : Option Nat
  month : Option Nat
  day : Option Nat
  albumtype : String
  va : Bool
  tracks : List TrackInfo
deriving DecidableEq, Repr, Inhabited

/-- A result tuple `(distance, ordered items, info)`. -/
structure CandTuple where
  dist : ℚ
  ordered : List Item
  info : AlbumInfo
deriving DecidableEq, Repr

inductive Recommendation where
  | strong
  | medium
  | none
deriving DecidableEq, Repr

/-- The injected `plugins` registry: extra numerator/denominator
contributions to the two distances and extra album candidates. -/
structure Plugins where
  track_distance : Item → TrackInfo → ℚ × ℚ
  album_distance : List Item → AlbumInfo → ℚ × ℚ
  candidates : List Item → List AlbumInfo

/-- No plugins loaded: every contribution is `(0, 0)` and no extra
candidates are produced. -/
def noPlugins : Plugins :=
  { track_distance := fun _ _ => (0, 0)
    album_distance := fun _ _ => (0, 0)
    candidates := fun _ => [] }

/-- The injected `mb` catalog client. -/
structure Catalog where
  album_for_id : String → Option AlbumInfo
  match_album : Option String → String → Nat → Nat → List AlbumInfo

structure Config where
  interactive_autotag : Bool
deriving DecidableEq, Repr

/-! ## Plurality and current metadata (lines 169-198) -/

/-- Frequency table in first-occurrence order (`defaultdict(int)` fill
loop). -/
def addFreq {α : Type} [DecidableEq α] : List (α × Nat) → α → List (α × Nat)
  | [], a => [(a, 1)]
  | (b, n) :: t, a => if a = b then (b, n + 1) :: t else (b, n) :: addFreq t a

def freqTable {α : Type} [DecidableEq α] (objs : List α) : List (α × Nat) :=
  objs.foldl addFreq []

/-- `_plurality`: the most frequent object (strictly increasing scan,
starting from `max_freq = 0`, `res = None`), and whether there was at
most one distinct object. -/
def _plurality {α : Type} [DecidableEq α] (objs : List α) : Option α × Bool :=
  let fs := freqTable objs
  let res := fs.foldl (fun acc p => if p.2 > acc.2 then (some p.1, p.2) else acc)
    ((Option.none : Option α), 0)
  (res.1, fs.length ≤ 1)

/-- `(likely artist, likely album, artist consensus)`. -/
def current_metadata (items : List Item) : Option String × Option String × Bool :=
  let pa := _plurality (items.map (fun i => i.artist))
  let pb := _plurality (items.map (fun i => i.album))
  (pa.1, pb.1, pa.2)

/-! ## Track distance (lines 226-279) -/

/-- The length component of the track-distance numerator
(lines 238-246): worst case when the catalog length is absent,
otherwise the grace/saturation formula. -/
def track_length_dist (itemLength : ℚ) (trackLength : Option ℚ) : ℚ :=
  match trackLength with
  | Option.none => TRACK_LENGTH_WEIGHT
  | some l =>
    let diff := |itemLength - l|
    let diff := max (diff - TRACK_LENGTH_GRACE) 0
    let diff := min diff TRACK_LENGTH_MAX
    diff / TRACK_LENGTH_MAX * TRACK_LENGTH_WEIGHT

/-- The accumulated `dist` of `track_distance`, one summand per `+=`. -/
def track_dist_num (P : Plugins) (item : Item) (td : TrackInfo)
    (track_index : Option Nat) (incl_artist : Bool) : ℚ :=
  track_length_dist item.length td.length
  + string_dist item.title td.title * TRACK_TITLE_WEIGHT
  + (if incl_artist then
      match td.artist with
      | some a => string_dist item.artist a * TRACK_ARTIST_WEIGHT
      | Option.none => 0
    else 0)
  + (if track_index.getD 0 ≠ 0 ∧ item.track ≠ 0 then
      (if track_index.getD 0 ≠ item.track then TRACK_INDEX_WEIGHT else 0)
    else 0)
  + (if item.mb_trackid ≠ "" then
      (if item.mb_trackid ≠ td.id then TRACK_ID_WEIGHT else 0)
    else 0)
  + (P.track_distance item td).1

/-- The accumulated `dist_max` of `track_distance`, one summand per
`dist_max +=`. -/
def track_dist_max (P : Plugins) (item : Item) (td : TrackInfo)
    (track_index : Option Nat) (incl_artist : Bool) : ℚ :=
  TRACK_LENGTH_WEIGHT
  + TRACK_TITLE_WEIGHT
  + (if incl_artist then
      match td.artist with
      | some _ => TRACK_ARTIST_WEIGHT
      | Option.none => 0
    else 0)
  + (if track_index.getD 0 ≠ 0 ∧ item.track ≠ 0 then TRACK_INDEX_WEIGHT else 0)
  + (if item.mb_trackid ≠ "" then TRACK_ID_WEIGHT else 0)
  + (P.track_distance item td).2

def track_distance (P : Plugins) (item : Item) (td : TrackInfo)
    (track_index : Option Nat) (incl_artist : Bool) : ℚ :=
  track_dist_num P item td track_index incl_artist
    / track_dist_max P item td track_index incl_artist

/-! ## Album distance (lines 281-316) -/

/-- The per-track part of the album distance: the `enumerate(zip(...))`
loop starting at slot index `i` (the source passes `i+1`, so the first
call is with index `1`). -/
def trackSums (P : Plugins) (va : Bool) : Nat → List Item → List TrackInfo → ℚ × ℚ
  | _, _, [] => (0, 0)
  | _, [], _ => (0, 0)
  | i, it :: its, td :: tds =>
    let rest := trackSums P va (i + 1) its tds
    (track_distance P it td (some i) va * TRACK_WEIGHT + rest.1, TRACK_WEIGHT + rest.2)

def distance (P : Plugins) (items : List Item) (info : AlbumInfo) : ℚ :=
  let cm := current_metadata items
  let cur_artist := cm.1.getD ""
  let cur_album := cm.2.1.getD ""
  let artistPair : ℚ × ℚ :=
    if info.va then (0, 0)
    else (string_dist cur_artist info.artist * ARTIST_WEIGHT, ARTIST_WEIGHT)
  let ts := trackSums P info.va 1 items info.tracks
  let pd := P.album_distance items info
  let dist := artistPair.1 + string_dist cur_album info.album * ALBUM_WEIGHT + ts.1 + pd.1
  let dist_max := artistPair.2 + ALBUM_WEIGHT + ts.2 + pd.2
  if dist_max = 0 then 0 else dist / dist_max

/-! ## Assignment (lines 200-224)

`munkres_compute` models the external `munkres` library's
`Munkres().compute` per its contract: a minimum-total-cost perfect
matching on the square cost matrix, returned as `(row, column)` pairs,
chosen deterministically; on the empty matrix it returns the empty
matching. -/

def matchingCost (costs : List (List ℚ)) (p : List Nat) : ℚ :=
  (p.enum.foldl (fun acc pr => acc + (costs.getD pr.1 []).getD pr.2 0) 0)

def munkres_compute (costs : List (List ℚ)) : List (Nat × Nat) :=
  let n := costs.length
  match (List.range n).permutations with
  | [] => []
  | p0 :: ps =>
    let best := ps.foldl (fun b p => if matchingCost costs p < matchingCost costs b then p else b) p0
    (List.range n).zip best

def order_items (P : Plugins) (items : List Item) (trackinfo : List TrackInfo) :
    Option (List Item) :=
  if items.length ≠ trackinfo.length then Option.none
  else
    let costs := items.map (fun cur =>
      trackinfo.enum.map (fun p => track_distance P cur p.2 (some (p.1 + 1)) false))
    let matching := munkres_compute costs
    -- `ordered_items = [None]*len(items)` then `ordered_items[canon_idx] = items[cur_idx]`;
    -- the matching is a permutation, so every slot is filled.
    let ordered := matching.foldl
      (fun (ord : List (Option Item)) pr => ord.set pr.2 (items.get? pr.1))
      (List.replicate items.length Option.none)
    some (ordered.map (fun o => o.getD default))

/-! ## Recommendation (lines 387-412) -/

def recommendation (results : List CandTuple) : Recommendation :=
  match results with
  | [] => Recommendation.none
  | r0 :: rest =>
    if r0.dist < STRONG_REC_THRESH then Recommendation.strong
    else
      match rest with
      | [] => Recommendation.medium
      | r1 :: _ =>
        if r0.dist ≤ MEDIUM_REC_THRESH then Recommendation.medium
        else if r1.dist - r0.dist ≥ REC_GAP_THRESH then Recommendation.medium
        else Recommendation.none

/-- Follows the specification's decision table: `d0` is the least
distance among the candidates, `d1` the second entry of the list. -/
def least_dist : List CandTuple → ℚ
  | [] => 0
  | c :: cs => cs.foldl (fun m x => min m x.dist) c.dist

def second_dist : List CandTuple → ℚ
  | _ :: c1 :: _ => c1.dist
  | _ => 0

/-- Follows the specification's decision table for the recommendation
classifier (first matching rule wins). -/
def recommendation_spec (results : List CandTuple) : Recommendation :=
  if results.length = 0 then Recommendation.none
  else if least_dist results < STRONG_REC_THRESH then Recommendation.strong
  else if results.length = 1 then Recommendation.medium
  else if least_dist results ≤ MEDIUM_REC_THRESH then Recommendation.medium
  else if second_dist results - least_dist results ≥ REC_GAP_THRESH then Recommendation.medium
  else Recommendation.none

/-! ## Candidate validation and the album tagger (lines 414-516) -/

def candLE (a b : CandTuple) : Prop := a.dist ≤ b.dist

instance : DecidableRel candLE :=
  fun a b => inferInstanceAs (Decidable (a.dist ≤ b.dist))

instance : IsTotal CandTuple candLE := ⟨fun a b => le_total a.dist b.dist⟩

instance : IsTrans CandTuple candLE := ⟨fun _ _ _ h1 h2 => le_trans h1 h2⟩

/-- `out_tuples.sort()`: ascending by distance. -/
def sortCands (l : List CandTuple) : List CandTuple := List.insertionSort candLE l

/-- The output dictionary keyed by MusicBrainz album ID, in insertion
order. -/
def dictVals (d : List (String × CandTuple)) : List CandTuple := d.map Prod.snd

def validate_candidate (P : Plugins) (items : List Item)
    (tuple_dict : List (String × CandTuple)) (info : AlbumInfo) :
    List (String × CandTuple) :=
  if info.album_id ∈ tuple_dict.map Prod.fst then tuple_dict
  else if items.length ≠ info.tracks.length then tuple_dict
  else
    match order_items P items info.tracks with
    | Option.none => tuple_dict
    | some [] => tuple_dict   -- `if not ordered`: the empty ordering is falsy
    | some (o :: os) =>
      tuple_dict ++ [(info.album_id, ⟨distance P (o :: os) info, o :: os, info⟩)]

/-- `match_by_id` (lines 367-381): consensus on non-empty item album
IDs (the `reduce` trick yields a truthy value exactly when all
collected IDs are equal), then catalog lookup. -/
def match_by_id (cat : Catalog) (items : List Item) : Option AlbumInfo :=
  let albumids := (items.map (fun i => i.mb_albumid)).filter (fun s => s != "")
  match albumids with
  | [] => Option.none
  | a :: rest => if rest.all (fun s => s == a) then cat.album_for_id a else Option.none

def truthyStr (o : Option String) : Bool := o.getD "" != ""

/-- The search phase of `tag_album` (lines 481-516): choose search
terms, primary search, various-artists fallback search, plugin
candidates, validation of every candidate, sort, recommend. -/
def tag_album_search (P : Plugins) (cat : Catalog) (items : List Item)
    (search_artist search_album cur_artist cur_album : Option String)
    (artist_consensus : Bool) (out_tuples : List (String × CandTuple)) :
    Option String × Option String × List CandTuple × Recommendation :=
  let keep := truthyStr search_artist && truthyStr search_album
  let sa := if keep then search_artist else cur_artist
  let sal := if keep then search_album else cur_album
  let candidates :=
    if truthyStr sa && truthyStr sal then
      cat.match_album (some (sa.getD "")) (sal.getD "") items.length MAX_CANDIDATES
    else []
  let candidates :=
    if truthyStr sal &&
        (!artist_consensus || decide ((sa.getD "").toLower ∈ VA_ARTISTS)
          || items.any (fun i => i.comp)) then
      candidates ++ cat.match_album Option.none (sal.getD "") items.length MAX_CANDIDATES
    else candidates
  let candidates := candidates ++ P.candidates items
  let out := candidates.foldl (fun d info => validate_candidate P items d info) out_tuples
  let res := sortCands (dictVals out)
  (cur_artist, cur_album, res, recommendation res)

def tag_album (P : Plugins) (cat : Catalog) (items : List Item) (config : Config)
    (search_artist search_album : Option String) :
    Option String × Option String × List CandTuple × Recommendation :=
  let cm := current_metadata items
  let out_tuples : List (String × CandTuple) :=
    match match_by_id cat items with
    | some info => validate_candidate P items [] info
    | Option.none => []
  let rec0 := recommendation (dictVals out_tuples)
  if out_tuples ≠ [] ∧ rec0 = Recommendation.strong ∧ config.interactive_autotag = false then
    (cm.1, cm.2.1, dictVals out_tuples, rec0)
  else
    tag_album_search P cat items search_artist search_album cm.1 cm.2.1 cm.2.2 out_tuples

/-! ## Applying metadata (lines 328-365) -/

/-- One iteration of the `apply_metadata` loop: set the item's fields
from the canonical track and album data.  `n` is `len(items)` of the
full list, `idx` the zero-based loop index. -/
def apply_track_metadata (info : AlbumInfo) (n idx : Nat) (item : Item) (td : TrackInfo) :
    Item :=
  { item with
    artist := match td.artist with
      | some a => a
      | Option.none => info.artist
    albumartist := info.artist
    album := info.album
    tracktotal := n
    year := match info.year with
      | some y => y
      | Option.none => item.year
    month := match info.month with
      | some m => m
      | Option.none => item.month
    day := match info.day with
      | some d => d
      | Option.none => item.day
    title := td.title
    track := idx + 1
    mb_trackid := td.id
    mb_albumid := info.album_id
    mb_artistid := match td.artist_id with
      | some a => a
      | Option.none => info.artist_id
    mb_albumartistid := info.artist_id
    albumtype := info.albumtype
    comp := info.va }

/-- The `zip(items, info['tracks'])` loop: items beyond the shorter
list are left untouched. -/
def applyGo (info : AlbumInfo) (n : Nat) : Nat → List Item → List TrackInfo → List Item
  | _, items, [] => items
  | _, [], _ => []
  | idx, i :: is, t :: ts => apply_track_metadata info n idx i t :: applyGo info n (idx + 1) is ts

def apply_metadata (items : List Item) (info : AlbumInfo) : List Item :=
  applyGo info items.length 0 items info.tracks

/-! ## Bounds for the string distance -/

theorem levenshtein_le_max (s t : List Char) :
    levenshtein s t ≤ max s.length t.length := by
  induction s, t using levenshtein.induct with
  | case1 t => simp [levenshtein]
  | case2 s hs =>
    cases s with
    | nil => exact absurd rfl hs
    | cons a s => simp [levenshtein]
  | case3 s b t ih =>
    rw [levenshtein, if_pos rfl]
    calc levenshtein s t ≤ max s.length t.length := ih
    _ ≤ max (b :: s).length (b :: t).length := by
        simp only [List.length_cons]
        exact max_le_max (Nat.le_succ _) (Nat.le_succ _)
  | case4 a s b t hab ih1 ih2 ih3 =>
    rw [levenshtein, if_neg hab]
    have h1 : min (levenshtein (a :: s) t) (min (levenshtein s (b :: t)) (levenshtein s t))
        ≤ levenshtein s t := le_trans (min_le_right _ _) (min_le_right _ _)
    calc 1 + min (levenshtein (a :: s) t) (min (levenshtein s (b :: t)) (levenshtein s t))
        ≤ 1 + levenshtein s t := by omega
    _ ≤ 1 + max s.length t.length := by have := ih3; omega
    _ = max (a :: s).length (b :: t).length := by
        simp only [List.length_cons, Nat.succ_max_succ]
        omega

theorem string_dist_basic_nonneg (s1 s2 : String) : 0 ≤ _string_dist_basic s1 s2 := by
  simp only [_string_dist_basic]
  split
  · exact le_refl 0
  · have h1 : (0 : ℚ) ≤ (levenshtein (normalizeChars s1) (normalizeChars s2) : ℚ) :=
      Nat.cast_nonneg _
    have h2 : (0 : ℚ) ≤ ((max (normalizeChars s1).length (normalizeChars s2).length : Nat) : ℚ) :=
      Nat.cast_nonneg _
    exact div_nonneg h1 (by exact_mod_cast h2)

theorem string_dist_basic_le_one (s1 s2 : String) : _string_dist_basic s1 s2 ≤ 1 := by
  simp only [_string_dist_basic]
  split
  · norm_num
  · rename_i h
    have hlen : 0 < max (normalizeChars s1).length (normalizeChars s2).length := by
      rcases not_and_or.mp h with h1 | h1
      · exact lt_of_lt_of_le (List.length_pos.mpr h1) (le_max_left _ _)
      · exact lt_of_lt_of_le (List.length_pos.mpr h1) (le_max_right _ _)
    have hpos : (0 : ℚ) < ((max (normalizeChars s1).length (normalizeChars s2).length : Nat) : ℚ) := by
      exact_mod_cast hlen
    rw [div_le_one (by exact_mod_cast hpos)]
    exact_mod_cast levenshtein_le_max _ _

/-- Invariant of the `string_dist` pattern loop: the running base
distance stays in `[0, 1]`, the penalty stays nonnegative, and their
sum never increases (each commit trades `delta` of base distance for at
most `delta` of penalty, because every pattern weight is at most 1). -/
theorem sdLoop_bound :
    ∀ (pats : List (Re × ℚ)), (∀ pw ∈ pats, 0 ≤ pw.2 ∧ pw.2 ≤ 1) →
    ∀ (s1 s2 : String) (base pen : ℚ), 0 ≤ base → base ≤ 1 → 0 ≤ pen →
    0 ≤ (sdLoop pats (s1, s2, base, pen)).2.2.1 ∧
      (sdLoop pats (s1, s2, base, pen)).2.2.1 ≤ 1 ∧
      0 ≤ (sdLoop pats (s1, s2, base, pen)).2.2.2 ∧
      (sdLoop pats (s1, s2, base, pen)).2.2.1 + (sdLoop pats (s1, s2, base, pen)).2.2.2
        ≤ base + pen := by
  intro pats
  induction pats with
  | nil =>
    intro _ s1 s2 base pen h0 h1 hp
    exact ⟨h0, h1, hp, le_refl _⟩
  | cons pw rest ih =>
    intro hw s1 s2 base pen h0 h1 hp
    obtain ⟨pat, weight⟩ := pw
    have hw0 : 0 ≤ weight := (hw (pat, weight) (List.mem_cons_self _ _)).1
    have hw1 : weight ≤ 1 := (hw (pat, weight) (List.mem_cons_self _ _)).2
    have hwrest : ∀ pw ∈ rest, 0 ≤ pw.2 ∧ pw.2 ≤ 1 :=
      fun pw hpw => hw pw (List.mem_cons_of_mem _ hpw)
    rw [sdLoop]
    split
    · set cd := _string_dist_basic (reSubStr pat s1) (reSubStr pat s2) with hcd
      have hcd0 : 0 ≤ cd := string_dist_basic_nonneg _ _
      have hcd1 : cd ≤ 1 := string_dist_basic_le_one _ _
      by_cases hδ : max 0 (base - cd) = 0
      · rw [if_pos hδ]
        exact ih hwrest s1 s2 base pen h0 h1 hp
      · rw [if_neg hδ]
        have hδ0 : 0 ≤ max 0 (base - cd) := le_max_left _ _
        have hδpos : 0 < max 0 (base - cd) := lt_of_le_of_ne hδ0 (Ne.symm hδ)
        have hbc : 0 < base - cd := by
          by_contra hc
          push_neg at hc
          rw [max_eq_left hc] at hδpos
          exact lt_irrefl 0 hδpos
        have hδeq : max 0 (base - cd) = base - cd := max_eq_right (le_of_lt hbc)
        have hpen' : 0 ≤ pen + weight * max 0 (base - cd) :=
          add_nonneg hp (mul_nonneg hw0 hδ0)
        obtain ⟨r0, r1, r2, r3⟩ := ih hwrest (reSubStr pat s1) (reSubStr pat s2) cd
          (pen + weight * max 0 (base - cd)) hcd0 hcd1 hpen'
        refine ⟨r0, r1, r2, le_trans r3 ?_⟩
        rw [hδeq]
        nlinarith
    · exact ih hwrest s1 s2 base pen h0 h1 hp

theorem sd_patterns_weights : ∀ pw ∈ SD_PATTERNS, 0 ≤ pw.2 ∧ pw.2 ≤ 1 := by
  intro pw hpw
  simp only [SD_PATTERNS, List.mem_cons, List.not_mem_nil, or_false] at hpw
  rcases hpw with rfl | rfl | rfl | rfl | rfl | rfl <;> norm_num

theorem string_dist_nonneg (s1 s2 : String) : 0 ≤ string_dist s1 s2 := by
  unfold string_dist
  obtain ⟨h0, _, h2, _⟩ := sdLoop_bound SD_PATTERNS sd_patterns_weights
    (sdRotate s1.toLower) (sdRotate s2.toLower)
    (_string_dist_basic (sdRotate s1.toLower) (sdRotate s2.toLower)) 0
    (string_dist_basic_nonneg _ _) (string_dist_basic_le_one _ _) (le_refl 0)
  exact add_nonneg h0 h2

theorem string_dist_le_one (s1 s2 : String) : string_dist s1 s2 ≤ 1 := by
  unfold string_dist
  obtain ⟨_, _, _, h3⟩ := sdLoop_bound SD_PATTERNS sd_patterns_weights
    (sdRotate s1.toLower) (sdRotate s2.toLower)
    (_string_dist_basic (sdRotate s1.toLower) (sdRotate s2.toLower)) 0
    (string_dist_basic_nonneg _ _) (string_dist_basic_le_one _ _) (le_refl 0)
  calc _ ≤ _ := h3
  _ ≤ 1 + 0 := add_le_add (string_dist_basic_le_one _ _) (le_refl 0)
  _ = 1 := by norm_num

/-! ## Bounds for the track distance -/

theorem track_length_dist_nonneg (l : ℚ) (tl : Option ℚ) : 0 ≤ track_length_dist l tl := by
  simp only [track_length_dist]
  match tl with
  | Option.none => norm_num [TRACK_LENGTH_WEIGHT]
  | some x =>
    have h1 : (0 : ℚ) ≤ max (|l - x| - TRACK_LENGTH_GRACE) 0 := le_max_right _ _
    have h2 : (0 : ℚ) ≤ min (max (|l - x| - TRACK_LENGTH_GRACE) 0) TRACK_LENGTH_MAX :=
      le_min h1 (by norm_num [TRACK_LENGTH_MAX])
    exact mul_nonneg (div_nonneg h2 (by norm_num [TRACK_LENGTH_MAX]))
      (by norm_num [TRACK_LENGTH_WEIGHT])

theorem track_length_dist_le (l : ℚ) (tl : Option ℚ) :
    track_length_dist l tl ≤ TRACK_LENGTH_WEIGHT := by
  simp only [track_length_dist]
  match tl with
  | Option.none => exact le_refl _
  | some x =>
    have h3 : min (max (|l - x| - TRACK_LENGTH_GRACE) 0) TRACK_LENGTH_MAX
        ≤ TRACK_LENGTH_MAX := min_le_right _ _
    have h4 : min (max (|l - x| - TRACK_LENGTH_GRACE) 0) TRACK_LENGTH_MAX / TRACK_LENGTH_MAX
        ≤ 1 := by
      rw [div_le_one (by norm_num [TRACK_LENGTH_MAX])]
      exact h3
    calc min (max (|l - x| - TRACK_LENGTH_GRACE) 0) TRACK_LENGTH_MAX / TRACK_LENGTH_MAX
          * TRACK_LENGTH_WEIGHT
        ≤ 1 * TRACK_LENGTH_WEIGHT :=
          mul_le_mul_of_nonneg_right h4 (by norm_num [TRACK_LENGTH_WEIGHT])
    _ = TRACK_LENGTH_WEIGHT := one_mul _

/-- The denominator of `track_distance` is at least `5`: the length
weight and the title weight are added unconditionally, and every other
contribution is nonnegative. -/
theorem track_dist_max_ge (P : Plugins) (item : Item) (td : TrackInfo)
    (ti : Option Nat) (ia : Bool) (h : 0 ≤ (P.track_distance item td).2) :
    5 ≤ track_dist_max P item td ti ia := by
  unfold track_dist_max
  rcases htd : td.artist with _ | a <;>
    simp only [htd] <;>
    split_ifs <;>
    norm_num [TRACK_LENGTH_WEIGHT, TRACK_TITLE_WEIGHT, TRACK_ARTIST_WEIGHT,
      TRACK_INDEX_WEIGHT, TRACK_ID_WEIGHT] <;>
    linarith

theorem track_dist_num_nonneg (item : Item) (td : TrackInfo)
    (ti : Option Nat) (ia : Bool) : 0 ≤ track_dist_num noPlugins item td ti ia := by
  unfold track_dist_num
  have h1 := track_length_dist_nonneg item.length td.length
  have h2 : 0 ≤ string_dist item.title td.title * TRACK_TITLE_WEIGHT :=
    mul_nonneg (string_dist_nonneg _ _) (by norm_num [TRACK_TITLE_WEIGHT])
  have h3 : (0:ℚ) ≤ (if ia then
      match td.artist with
      | some a => string_dist item.artist a * TRACK_ARTIST_WEIGHT
      | Option.none => 0
    else 0) := by
    rcases htd : td.artist with _ | a <;> simp only [htd] <;> split_ifs <;>
      first
        | exact le_refl 0
        | exact mul_nonneg (string_dist_nonneg _ _) (by norm_num [TRACK_ARTIST_WEIGHT])
  have h4 : (0:ℚ) ≤ (if ti.getD 0 ≠ 0 ∧ item.track ≠ 0 then
      (if ti.getD 0 ≠ item.track then TRACK_INDEX_WEIGHT else 0) else 0) := by
    split_ifs <;> norm_num [TRACK_INDEX_WEIGHT]
  have h5 : (0:ℚ) ≤ (if item.mb_trackid ≠ "" then
      (if item.mb_trackid ≠ td.id then TRACK_ID_WEIGHT else 0) else 0) := by
    split_ifs <;> norm_num [TRACK_ID_WEIGHT]
  have h6 : ((noPlugins.track_distance item td).1 : ℚ) = 0 := rfl
  linarith

theorem track_dist_num_le_max (item : Item) (td : TrackInfo)
    (ti : Option Nat) (ia : Bool) :
    track_dist_num noPlugins item td ti ia ≤ track_dist_max noPlugins item td ti ia := by
  unfold track_dist_num track_dist_max
  have h1 := track_length_dist_le item.length td.length
  have h2 : string_dist item.title td.title * TRACK_TITLE_WEIGHT ≤ TRACK_TITLE_WEIGHT := by
    calc string_dist item.title td.title * TRACK_TITLE_WEIGHT
        ≤ 1 * TRACK_TITLE_WEIGHT :=
          mul_le_mul_of_nonneg_right (string_dist_le_one _ _) (by norm_num [TRACK_TITLE_WEIGHT])
    _ = TRACK_TITLE_WEIGHT := one_mul _
  have h3 : (if ia then
      match td.artist with
      | some a => string_dist item.artist a * TRACK_ARTIST_WEIGHT
      | Option.none => 0
    else 0) ≤ (if ia then
      match td.artist with
      | some _ => TRACK_ARTIST_WEIGHT
      | Option.none => (0:ℚ)
    else 0) := by
    rcases htd : td.artist with _ | a <;> simp only [htd] <;> split_ifs <;>
      first
        | exact le_refl _
        | calc string_dist item.artist a * TRACK_ARTIST_WEIGHT
              ≤ 1 * TRACK_ARTIST_WEIGHT :=
                mul_le_mul_of_nonneg_right (string_dist_le_one _ _)
                  (by norm_num [TRACK_ARTIST_WEIGHT])
          _ = TRACK_ARTIST_WEIGHT := one_mul _
  have h4 : (if ti.getD 0 ≠ 0 ∧ item.track ≠ 0 then
      (if ti.getD 0 ≠ item.track then TRACK_INDEX_WEIGHT else 0) else 0)
      ≤ (if ti.getD 0 ≠ 0 ∧ item.track ≠ 0 then TRACK_INDEX_WEIGHT else (0:ℚ)) := by
    split_ifs <;> norm_num [TRACK_INDEX_WEIGHT]
  have h5 : (if item.mb_trackid ≠ "" then
      (if item.mb_trackid ≠ td.id then TRACK_ID_WEIGHT else 0) else 0)
      ≤ (if item.mb_trackid ≠ "" then TRACK_ID_WEIGHT else (0:ℚ)) := by
    split_ifs <;> norm_num [TRACK_ID_WEIGHT]
  have h6 : ((noPlugins.track_distance item td).1 : ℚ) = 0 := rfl
  have h7 : ((noPlugins.track_distance item td).2 : ℚ) = 0 := rfl
  linarith

theorem track_distance_noPlugins_bounds (item : Item) (td : TrackInfo)
    (ti : Option Nat) (ia : Bool) :
    0 ≤ track_distance noPlugins item td ti ia ∧ track_distance noPlugins item td ti ia ≤ 1 := by
  have hmax : 5 ≤ track_dist_max noPlugins item td ti ia :=
    track_dist_max_ge noPlugins item td ti ia (le_refl 0)
  have hpos : 0 < track_dist_max noPlugins item td ti ia := by linarith
  constructor
  · exact div_nonneg (track_dist_num_nonneg item td ti ia) (le_of_lt hpos)
  · rw [track_distance, div_le_one hpos]
    exact track_dist_num_le_max item td ti ia

/-! ## Bounds for the album distance -/

theorem trackSums_bounds (va : Bool) :
    ∀ (i : Nat) (items : List Item) (tds : List TrackInfo),
    0 ≤ (trackSums noPlugins va i items tds).1 ∧
      (trackSums noPlugins va i items tds).1 ≤ (trackSums noPlugins va i items tds).2 ∧
      0 ≤ (trackSums noPlugins va i items tds).2 := by
  intro i items tds
  induction items generalizing i tds with
  | nil => cases tds <;> simp [trackSums]
  | cons it its ih =>
    cases tds with
    | nil => simp [trackSums]
    | cons td tds =>
      obtain ⟨h1, h2, h3⟩ := ih (i + 1) tds
      obtain ⟨b1, b2⟩ := track_distance_noPlugins_bounds it td (some i) va
      simp only [trackSums, TRACK_WEIGHT]
      refine ⟨by nlinarith, by nlinarith, by nlinarith⟩

theorem distance_noPlugins_bounds (items : List Item) (info : AlbumInfo) :
    0 ≤ distance noPlugins items info ∧ distance noPlugins items info ≤ 1 := by
  simp only [distance]
  obtain ⟨t1, t2, t3⟩ := trackSums_bounds info.va 1 items info.tracks
  have sa0 : 0 ≤ string_dist ((current_metadata items).1.getD "") info.artist :=
    string_dist_nonneg _ _
  have sa1 : string_dist ((current_metadata items).1.getD "") info.artist ≤ 1 :=
    string_dist_le_one _ _
  have sb0 : 0 ≤ string_dist ((current_metadata items).2.1.getD "") info.album :=
    string_dist_nonneg _ _
  have sb1 : string_dist ((current_metadata items).2.1.getD "") info.album ≤ 1 :=
    string_dist_le_one _ _
  have hpd1 : ((noPlugins.album_distance items info).1 : ℚ) = 0 := rfl
  have hpd2 : ((noPlugins.album_distance items info).2 : ℚ) = 0 := rfl
  split_ifs with hva hz hz
  · norm_num
  · -- va release: denominator is ALBUM_WEIGHT + track denominators
    simp only [hpd1, hpd2] at hz ⊢
    have hden : (0:ℚ) < 0 + ALBUM_WEIGHT + (trackSums noPlugins info.va 1 items info.tracks).2 + 0 := by
      rcases lt_or_eq_of_le (by norm_num [ALBUM_WEIGHT]; linarith :
        (0:ℚ) ≤ 0 + ALBUM_WEIGHT + (trackSums noPlugins info.va 1 items info.tracks).2 + 0)
        with h | h
      · exact h
      · exact absurd h.symm hz
    constructor
    · apply div_nonneg _ (le_of_lt hden)
      have := mul_nonneg sb0 (by norm_num [ALBUM_WEIGHT] : (0:ℚ) ≤ ALBUM_WEIGHT)
      linarith
    · rw [div_le_one hden]
      have := mul_le_mul_of_nonneg_right sb1 (by norm_num [ALBUM_WEIGHT] : (0:ℚ) ≤ ALBUM_WEIGHT)
      norm_num [ALBUM_WEIGHT] at this ⊢
      linarith
  · norm_num
  · simp only [hpd1, hpd2] at hz ⊢
    have hden : (0:ℚ) < ARTIST_WEIGHT + ALBUM_WEIGHT
        + (trackSums noPlugins info.va 1 items info.tracks).2 + 0 := by
      rcases lt_or_eq_of_le (by norm_num [ARTIST_WEIGHT, ALBUM_WEIGHT]; linarith :
        (0:ℚ) ≤ ARTIST_WEIGHT + ALBUM_WEIGHT
          + (trackSums noPlugins info.va 1 items info.tracks).2 + 0)
        with h | h
      · exact h
      · exact absurd h.symm hz
    constructor
    · apply div_nonneg _ (le_of_lt hden)
      have ha := mul_nonneg sa0 (by norm_num [ARTIST_WEIGHT] : (0:ℚ) ≤ ARTIST_WEIGHT)
      have hb := mul_nonneg sb0 (by norm_num [ALBUM_WEIGHT] : (0:ℚ) ≤ ALBUM_WEIGHT)
      linarith
    · rw [div_le_one hden]
      have ha := mul_le_mul_of_nonneg_right sa1 (by norm_num [ARTIST_WEIGHT] : (0:ℚ) ≤ ARTIST_WEIGHT)
      have hb := mul_le_mul_of_nonneg_right sb1 (by norm_num [ALBUM_WEIGHT] : (0:ℚ) ≤ ALBUM_WEIGHT)
      norm_num [ARTIST_WEIGHT, ALBUM_WEIGHT] at ha hb ⊢
      linarith

/-! ## Witness fixtures -/

def tdW : TrackInfo :=
  { id := "t1", title := "cc", artist := Option.none, artist_id := Option.none,
    length := some 100 }

def infoW : AlbumInfo :=
  { album_id := "a1", album := "bb", artist := "aa", artist_id := "r1",
    year := Option.none, month := Option.none, day := Option.none,
    albumtype := "album", va := false, tracks := [tdW] }

def itemW : Item :=
  { artist := "aa", albumartist := "", album := "bb", title := "cc", track := 1,
    tracktotal := 0, length := 100, year := 0, month := 0, day := 0,
    mb_trackid := "", mb_albumid := "X", mb_artistid := "", mb_albumartistid := "",
    albumtype := "", comp := false }

def catW : Catalog :=
  { album_for_id := fun s => if s = "X" then some infoW else Option.none,
    match_album := fun _ _ _ _ => [] }

def tupleW : CandTuple := ⟨0, [itemW], infoW⟩

def mkCand (d : ℚ) : CandTuple := ⟨d, [], default⟩

/-! ## Recommendation: code versus decision table -/

theorem foldl_min_eq (d : ℚ) (l : List CandTuple) (h : ∀ x ∈ l, d ≤ x.dist) :
    l.foldl (fun m x => min m x.dist) d = d := by
  induction l generalizing d with
  | nil => rfl
  | cons x xs ih =>
    simp only [List.foldl_cons]
    rw [min_eq_left (h x (List.mem_cons_self x xs))]
    exact ih d fun y hy => h y (List.mem_cons_of_mem _ hy)

/-! ## Claim theorems -/

/-- C1: with external plugin contributions absent (`noPlugins`
contributes zero numerator and zero denominator), `track_distance` is
in `[0, 1]` for every item, canonical track, optional slot index and
include-artist flag, and the album `distance` is in `[0, 1]` for every
item list and album info of equal length. -/
theorem track_and_album_distance_in_unit_interval :
    (∀ (item : Item) (td : TrackInfo) (ti : Option Nat) (ia : Bool),
      0 ≤ track_distance noPlugins item td ti ia ∧
        track_distance noPlugins item td ti ia ≤ 1) ∧
    (∀ (items : List Item) (info : AlbumInfo), items.length = info.tracks.length →
      0 ≤ distance noPlugins items info ∧ distance noPlugins items info ≤ 1) :=
  ⟨fun item td ti ia => track_distance_noPlugins_bounds item td ti ia,
   fun items info _ => distance_noPlugins_bounds items info⟩

theorem track_and_album_distance_in_unit_interval_witness :
    ([itemW].length = infoW.tracks.length) ∧
    (0 ≤ track_distance noPlugins itemW tdW (some 1) false ∧
      track_distance noPlugins itemW tdW (some 1) false ≤ 1) ∧
    (0 ≤ distance noPlugins [itemW] infoW ∧ distance noPlugins [itemW] infoW ≤ 1) :=
  ⟨rfl, track_and_album_distance_in_unit_interval.1 itemW tdW (some 1) false,
   track_and_album_distance_in_unit_interval.2 [itemW] infoW rfl⟩

/-- C2: on every candidate list sorted ascending by distance,
`recommendation` agrees with the specification's decision table (first
matching rule of: NONE on empty, STRONG when the least distance is
below 0.04, MEDIUM for a single candidate, MEDIUM when the least
distance is at most 0.25, MEDIUM when the second distance exceeds the
least by at least 0.25, otherwise NONE). -/
theorem recommendation_matches_decision_table (results : List CandTuple)
    (hs : List.Sorted candLE results) :
    recommendation results = recommendation_spec results := by
  match results with
  | [] => rfl
  | [r0] =>
    by_cases h : r0.dist < STRONG_REC_THRESH <;>
      simp [recommendation, recommendation_spec, least_dist, h]
  | r0 :: r1 :: rest =>
    have hhead : ∀ x ∈ r1 :: rest, r0.dist ≤ x.dist := by
      intro x hx
      exact (List.sorted_cons.mp hs).1 x hx
    have hmin : least_dist (r0 :: r1 :: rest) = r0.dist := by
      simp only [least_dist]
      exact foldl_min_eq r0.dist (r1 :: rest) hhead
    have h0 : ¬((r0 :: r1 :: rest).length = 0) := by simp
    have h1 : ¬((r0 :: r1 :: rest).length = 1) := by simp
    by_cases hS : r0.dist < STRONG_REC_THRESH
    · simp [recommendation, recommendation_spec, hmin, h0, hS]
    · by_cases hM : r0.dist ≤ MEDIUM_REC_THRESH
      · simp [recommendation, recommendation_spec, second_dist, hmin, h0, h1, hS, hM]
      · by_cases hG : r1.dist - r0.dist ≥ REC_GAP_THRESH <;>
          simp [recommendation, recommendation_spec, second_dist, hmin, h0, h1, hS, hM, hG]

theorem recommendation_matches_decision_table_witness :
    List.Sorted candLE [mkCand (10/100), mkCand (40/100)] ∧
    recommendation [mkCand (10/100), mkCand (40/100)]
      = recommendation_spec [mkCand (10/100), mkCand (40/100)] :=
  ⟨by with_unfolding_all decide,
   recommendation_matches_decision_table [mkCand (10/100), mkCand (40/100)]
     (by with_unfolding_all decide)⟩

/-- C3 counterexample: on the sorted distance list `[0.10, 0.20]` the
code returns MEDIUM (the least distance is at most 0.25), not NONE as
the claim states. -/
theorem recommendation_scenario_counterexample :
    recommendation [mkCand (10/100), mkCand (20/100)] ≠ Recommendation.none := by
  with_unfolding_all decide

/-- C3 (amended): `[0.10, 0.40]` gives MEDIUM, `[0.10, 0.20]` gives
MEDIUM, `[0.03]` gives STRONG and `[0.50]` gives MEDIUM. -/
theorem recommendation_scenario_values :
    recommendation [mkCand (10/100), mkCand (40/100)] = Recommendation.medium ∧
    recommendation [mkCand (10/100), mkCand (20/100)] = Recommendation.medium ∧
    recommendation [mkCand (3/100)] = Recommendation.strong ∧
    recommendation [mkCand (50/100)] = Recommendation.medium := by
  refine ⟨?_, ?_, ?_, ?_⟩ <;> with_unfolding_all decide

/-- C6 counterexample: at `item.length = 245` against a track length of
208 the length contribution is `2·(27/30)` (the discrepancy past the
grace period is 27 seconds), not `2·(25/30)`. -/
theorem track_length_contribution_counterexample :
    track_length_dist 245 (some 208) ≠ TRACK_LENGTH_WEIGHT * (25/30) := by
  with_unfolding_all decide

/-- C6 (amended): with a present track length of 208, an item length of
200 contributes 0 to the numerator of `track_distance`, and an item
length of 245 contributes `2·(27/30)`. -/
theorem track_length_contribution_values :
    track_length_dist 200 (some 208) = 0 ∧
    track_length_dist 245 (some 208) = TRACK_LENGTH_WEIGHT * (27/30) := by
  refine ⟨?_, ?_⟩ <;> with_unfolding_all decide

/-- C9: the denominator of `track_distance` is at least 5 for every
input whenever the plugin denominator contribution is nonnegative (the
length weight 2.0 and the title weight 3.0 are added unconditionally),
so the final division never divides by zero even without an explicit
guard. -/
theorem track_dist_max_ge_five (P : Plugins) (item : Item) (td : TrackInfo)
    (ti : Option Nat) (ia : Bool) (h : 0 ≤ (P.track_distance item td).2) :
    5 ≤ track_dist_max P item td ti ia ∧ track_dist_max P item td ti ia ≠ 0 := by
  have h5 := track_dist_max_ge P item td ti ia h
  exact ⟨h5, ne_of_gt (lt_of_lt_of_le (by norm_num) h5)⟩

theorem track_dist_max_ge_five_witness :
    (0 ≤ (noPlugins.track_distance itemW tdW).2) ∧
    (5 ≤ track_dist_max noPlugins itemW tdW (some 1) false ∧
      track_dist_max noPlugins itemW tdW (some 1) false ≠ 0) :=
  ⟨le_refl 0, track_dist_max_ge_five noPlugins itemW tdW (some 1) false (le_refl 0)⟩

/-! ## Applying metadata twice -/

theorem apply_track_metadata_idem (info : AlbumInfo) (n idx : Nat) (item : Item)
    (td : TrackInfo) :
    apply_track_metadata info n idx (apply_track_metadata info n idx item td) td
      = apply_track_metadata info n idx item td := by
  simp only [apply_track_metadata]
  cases info.year <;> cases info.month <;> cases info.day <;> rfl

theorem applyGo_length (info : AlbumInfo) (n : Nat) :
    ∀ (idx : Nat) (items : List Item) (tds : List TrackInfo),
    (applyGo info n idx items tds).length = items.length := by
  intro idx items tds
  induction items generalizing idx tds with
  | nil => cases tds <;> simp [applyGo]
  | cons i is ih =>
    cases tds with
    | nil => simp [applyGo]
    | cons t ts => simp [applyGo, ih]

theorem applyGo_idem (info : AlbumInfo) (n : Nat) :
    ∀ (idx : Nat) (items : List Item) (tds : List TrackInfo),
    applyGo info n idx (applyGo info n idx items tds) tds = applyGo info n idx items tds := by
  intro idx items tds
  induction items generalizing idx tds with
  | nil => cases tds <;> simp [applyGo]
  | cons i is ih =>
    cases tds with
    | nil => simp [applyGo]
    | cons t ts => simp [applyGo, apply_track_metadata_idem, ih]

/-- C8: applying the same album metadata twice in a row leaves every
item field exactly as after the first application. -/
theorem apply_metadata_idempotent (items : List Item) (info : AlbumInfo)
    (h : items.length = info.tracks.length) :
    apply_metadata (apply_metadata items info) info = apply_metadata items info := by
  unfold apply_metadata
  rw [applyGo_length]
  exact applyGo_idem info items.length 0 items info.tracks

theorem apply_metadata_idempotent_witness :
    ([itemW].length = infoW.tracks.length) ∧
    apply_metadata (apply_metadata [itemW] infoW) infoW = apply_metadata [itemW] infoW :=
  ⟨rfl, apply_metadata_idempotent [itemW] infoW rfl⟩

/-! ## Structure of validation and the result dictionary -/

theorem foldl_set_length (items : List Item) :
    ∀ (m : List (Nat × Nat)) (ord : List (Option Item)),
    (m.foldl (fun (o : List (Option Item)) pr => o.set pr.2 (items.get? pr.1)) ord).length
      = ord.length := by
  intro m
  induction m with
  | nil => intro ord; rfl
  | cons pr m ih =>
    intro ord
    simp only [List.foldl_cons]
    rw [ih]
    exact List.length_set ..

theorem order_items_length (P : Plugins) (items : List Item) (ti : List TrackInfo)
    (l : List Item) (h : order_items P items ti = some l) : l.length = items.length := by
  unfold order_items at h
  split_ifs at h with hlen
  simp only [Option.some.injEq] at h
  rw [← h, List.length_map, foldl_set_length, List.length_replicate]

/-- The two possible outcomes of `validate_candidate`: either the
dictionary is unchanged (duplicate, track-count mismatch, or no usable
ordering) or one entry for a nonempty release is appended under a fresh
key. -/
theorem validate_cases (P : Plugins) (items : List Item)
    (d : List (String × CandTuple)) (info : AlbumInfo) :
    validate_candidate P items d info = d ∨
    (info.album_id ∉ d.map Prod.fst ∧ info.tracks ≠ [] ∧
      ∃ ord, ord ≠ [] ∧
        validate_candidate P items d info
          = d ++ [(info.album_id, ⟨distance P ord info, ord, info⟩)]) := by
  unfold validate_candidate
  split_ifs with h1 h2
  · exact Or.inl rfl
  · exact Or.inl rfl
  · push_neg at h2
    rcases ho : order_items P items info.tracks with _ | ord
    · exact Or.inl rfl
    · cases ord with
      | nil => exact Or.inl rfl
      | cons o os =>
        refine Or.inr ⟨h1, ?_, o :: os, by simp, rfl⟩
        have hlen := order_items_length P items info.tracks (o :: os) ho
        intro htr
        rw [htr] at h2
        simp at h2
        rw [h2] at hlen
        simp at hlen

def DictInv (d : List (String × CandTuple)) : Prop :=
  (d.map Prod.fst).Nodup ∧ ∀ p ∈ d, p.2.info.album_id = p.1

def TracksNonempty (d : List (String × CandTuple)) : Prop :=
  ∀ p ∈ d, p.2.info.tracks ≠ []

theorem validate_DictInv (P : Plugins) (items : List Item) (info : AlbumInfo)
    (d : List (String × CandTuple)) (h : DictInv d) :
    DictInv (validate_candidate P items d info) := by
  rcases validate_cases P items d info with he | ⟨hnot, _, ord, _, he⟩
  · rw [he]; exact h
  · rw [he]
    constructor
    · rw [List.map_append]
      rw [List.nodup_append]
      refine ⟨h.1, List.nodup_singleton _, ?_⟩
      intro x hx hx'
      simp only [List.map_cons, List.map_nil, List.mem_singleton] at hx'
      subst hx'
      exact hnot hx
    · intro p hp
      rcases List.mem_append.mp hp with hp | hp
      · exact h.2 p hp
      · simp only [List.mem_singleton] at hp
        subst hp
        rfl

theorem validate_TracksNonempty (P : Plugins) (items : List Item) (info : AlbumInfo)
    (d : List (String × CandTuple)) (h : TracksNonempty d) :
    TracksNonempty (validate_candidate P items d info) := by
  rcases validate_cases P items d info with he | ⟨_, htr, ord, _, he⟩
  · rw [he]; exact h
  · rw [he]
    intro p hp
    rcases List.mem_append.mp hp with hp | hp
    · exact h p hp
    · simp only [List.mem_singleton] at hp
      subst hp
      exact htr

theorem validate_mem (P : Plugins) (items : List Item) (info : AlbumInfo)
    (d : List (String × CandTuple)) (p : String × CandTuple) (hp : p ∈ d) :
    p ∈ validate_candidate P items d info := by
  rcases validate_cases P items d info with he | ⟨_, _, ord, _, he⟩
  · rw [he]; exact hp
  · rw [he]; exact List.mem_append_left _ hp

theorem foldl_validate_DictInv (P : Plugins) (items : List Item) :
    ∀ (cs : List AlbumInfo) (d : List (String × CandTuple)), DictInv d →
    DictInv (cs.foldl (fun d info => validate_candidate P items d info) d) := by
  intro cs
  induction cs with
  | nil => intro d h; exact h
  | cons c cs ih =>
    intro d h
    exact ih _ (validate_DictInv P items c d h)

theorem foldl_validate_TracksNonempty (P : Plugins) (items : List Item) :
    ∀ (cs : List AlbumInfo) (d : List (String × CandTuple)), TracksNonempty d →
    TracksNonempty (cs.foldl (fun d info => validate_candidate P items d info) d) := by
  intro cs
  induction cs with
  | nil => intro d h; exact h
  | cons c cs ih =>
    intro d h
    exact ih _ (validate_TracksNonempty P items c d h)

theorem foldl_validate_mem (P : Plugins) (items : List Item) :
    ∀ (cs : List AlbumInfo) (d : List (String × CandTuple)) (p : String × CandTuple),
    p ∈ d → p ∈ cs.foldl (fun d info => validate_candidate P items d info) d := by
  intro cs
  induction cs with
  | nil => intro d p hp; exact hp
  | cons c cs ih =>
    intro d p hp
    exact ih _ p (validate_mem P items c d p hp)

theorem sortCands_sorted (l : List CandTuple) : List.Sorted candLE (sortCands l) :=
  List.sorted_insertionSort candLE l

theorem sortCands_perm (l : List CandTuple) : List.Perm (sortCands l) l :=
  List.perm_insertionSort candLE l

theorem dictVals_ids_nodup (d : List (String × CandTuple)) (h : DictInv d) :
    ((dictVals d).map (fun c => c.info.album_id)).Nodup := by
  have heq : (dictVals d).map (fun c => c.info.album_id) = d.map Prod.fst := by
    unfold dictVals
    rw [List.map_map]
    exact List.map_congr_left fun p hp => h.2 p hp
  rw [heq]
  exact h.1

/-- Everything the claims need about the search phase: its result list
is sorted, has pairwise distinct album IDs (given a well-formed input
dictionary), retains every candidate already in the dictionary, and
contains only releases with at least one track. -/
theorem tag_album_search_props (P : Plugins) (cat : Catalog) (items : List Item)
    (sa sal ca cal : Option String) (cons : Bool) (d : List (String × CandTuple))
    (hinv : DictInv d) (htr : TracksNonempty d) :
    List.Sorted candLE (tag_album_search P cat items sa sal ca cal cons d).2.2.1 ∧
    (((tag_album_search P cat items sa sal ca cal cons d).2.2.1.map
        (fun c => c.info.album_id)).Nodup) ∧
    (∀ p ∈ d, p.2 ∈ (tag_album_search P cat items sa sal ca cal cons d).2.2.1) ∧
    (∀ c ∈ (tag_album_search P cat items sa sal ca cal cons d).2.2.1,
      c.info.tracks ≠ []) := by
  have main : ∀ (cs : List AlbumInfo),
      List.Sorted candLE
        (sortCands (dictVals (cs.foldl (fun d info => validate_candidate P items d info) d))) ∧
      ((sortCands (dictVals (cs.foldl (fun d info => validate_candidate P items d info) d))).map
          (fun c => c.info.album_id)).Nodup ∧
      (∀ p ∈ d, p.2 ∈
        sortCands (dictVals (cs.foldl (fun d info => validate_candidate P items d info) d))) ∧
      (∀ c ∈ sortCands (dictVals (cs.foldl (fun d info => validate_candidate P items d info) d)),
        c.info.tracks ≠ []) := by
    intro cs
    set out := cs.foldl (fun d info => validate_candidate P items d info) d with hout
    have hinv' : DictInv out := foldl_validate_DictInv P items cs d hinv
    have htr' : TracksNonempty out := foldl_validate_TracksNonempty P items cs d htr
    refine ⟨sortCands_sorted _, ?_, ?_, ?_⟩
    · have hperm := (sortCands_perm (dictVals out)).map (fun c => c.info.album_id)
      exact hperm.nodup_iff.mpr (dictVals_ids_nodup out hinv')
    · intro p hp
      have h1 : p ∈ out := foldl_validate_mem P items cs d p hp
      have h2 : p.2 ∈ dictVals out := List.mem_map_of_mem Prod.snd h1
      exact (sortCands_perm (dictVals out)).mem_iff.mpr h2
    · intro c hc
      have h1 : c ∈ dictVals out := (sortCands_perm (dictVals out)).mem_iff.mp hc
      obtain ⟨p, hp, hpc⟩ := List.mem_map.mp h1
      rw [← hpc]
      exact htr' p hp
  exact main _

/-- The result list of `tag_album` (on either return path) is sorted
ascending by distance, has pairwise distinct album IDs, and contains
only releases with at least one track. -/
theorem tag_album_props (P : Plugins) (cat : Catalog) (items : List Item) (config : Config)
    (sa sal : Option String) :
    List.Sorted candLE (tag_album P cat items config sa sal).2.2.1 ∧
    ((tag_album P cat items config sa sal).2.2.1.map (fun c => c.info.album_id)).Nodup ∧
    (∀ c ∈ (tag_album P cat items config sa sal).2.2.1, c.info.tracks ≠ []) := by
  unfold tag_album
  rcases hm : match_by_id cat items with _ | info
  · simp only [hm]
    rw [if_neg (by simp)]
    have h := tag_album_search_props P cat items sa sal (current_metadata items).1
      (current_metadata items).2.1 (current_metadata items).2.2 []
      ⟨List.nodup_nil, by simp⟩ (by intro p hp; simp at hp)
    exact ⟨h.1, h.2.1, h.2.2.2⟩
  · simp only [hm]
    have hinv : DictInv (validate_candidate P items [] info) :=
      validate_DictInv P items info [] ⟨List.nodup_nil, by simp⟩
    have htr : TracksNonempty (validate_candidate P items [] info) :=
      validate_TracksNonempty P items info [] (by intro p hp; simp at hp)
    split_ifs with hc
    · rcases validate_cases P items [] info with he | ⟨_, htrne, ord, _, he⟩
      · rw [he] at hc
        exact absurd rfl hc.1
      · rw [he]
        simp only [List.nil_append, dictVals, List.map_cons, List.map_nil]
        refine ⟨List.sorted_singleton _, List.nodup_singleton _, ?_⟩
        intro c hc'
        simp only [List.mem_singleton] at hc'
        subst hc'
        exact htrne
    · have h := tag_album_search_props P cat items sa sal (current_metadata items).1
        (current_metadata items).2.1 (current_metadata items).2.2
        (validate_candidate P items [] info) hinv htr
      exact ⟨h.1, h.2.1, h.2.2.2⟩

/-- C5: every completed call to `tag_album` returns a candidate list
sorted ascending by distance with at most one candidate per album ID. -/
theorem tag_album_sorted_and_deduped (P : Plugins) (cat : Catalog) (items : List Item)
    (config : Config) (sa sal : Option String) :
    List.Sorted candLE (tag_album P cat items config sa sal).2.2.1 ∧
    ((tag_album P cat items config sa sal).2.2.1.map (fun c => c.info.album_id)).Nodup :=
  ⟨(tag_album_props P cat items config sa sal).1,
   (tag_album_props P cat items config sa sal).2.1⟩

/-- C10: `order_items` on no items and no tracks returns the empty
ordering (not `None`); `validate_candidate` drops every candidate whose
release has zero tracks, leaving the dictionary unchanged; hence no
zero-track release ever appears in a `tag_album` result set. -/
theorem zero_track_release_dropped :
    (∀ P : Plugins, order_items P [] [] = some []) ∧
    (∀ (P : Plugins) (items : List Item) (d : List (String × CandTuple)) (info : AlbumInfo),
      info.tracks = [] → validate_candidate P items d info = d) ∧
    (∀ (P : Plugins) (cat : Catalog) (items : List Item) (config : Config)
      (sa sal : Option String),
      ∀ c ∈ (tag_album P cat items config sa sal).2.2.1, c.info.tracks ≠ []) := by
  refine ⟨?_, ?_, ?_⟩
  · intro P
    simp [order_items, munkres_compute, List.permutations_nil]
  · intro P items d info ht
    rcases validate_cases P items d info with he | ⟨_, htne, _, _, _⟩
    · exact he
    · exact absurd ht htne
  · intro P cat items config sa sal
    exact (tag_album_props P cat items config sa sal).2.2

/-! ## The catalog-ID short circuit -/

theorem match_by_id_consensus (cat : Catalog) (items : List Item) (x : String)
    (hne : items ≠ []) (hx : x ≠ "") (hall : ∀ i ∈ items, i.mb_albumid = x) :
    match_by_id cat items = cat.album_for_id x := by
  unfold match_by_id
  obtain ⟨i0, rest, rfl⟩ := List.exists_cons_of_ne_nil hne
  have h0 : i0.mb_albumid = x := hall i0 (List.mem_cons_self _ _)
  have hgx : (x != "") = true := by simpa using hx
  simp only [List.map_cons, List.filter_cons, h0, hgx, if_true]
  have hall' : ((rest.map (fun i => i.mb_albumid)).filter (fun s => s != "")).all
      (fun s => s == x) = true := by
    rw [List.all_eq_true]
    intro s hs
    have hs' := List.mem_of_mem_filter hs
    obtain ⟨i, hi, rfl⟩ := List.mem_map.mp hs'
    simpa using hall i (List.mem_cons_of_mem _ hi)
  simp only [hall', if_true]

/-- C4: when all items agree on a non-empty catalog album ID, the
catalog lookup yields a release validating with distance below the
strong threshold, and autotagging is not interactive, `tag_album`
returns that single candidate with STRONG immediately — for every
search oracle, so no text search can influence the result; in
interactive mode the ID-matched candidate instead competes inside the
final sorted list. -/
theorem tag_album_id_short_circuit (P : Plugins) (cat : Catalog) (items : List Item)
    (config : Config) (sa sal : Option String) (x : String) (info : AlbumInfo)
    (t : CandTuple)
    (hne : items ≠ []) (hx : x ≠ "")
    (hall : ∀ i ∈ items, i.mb_albumid = x)
    (hlook : cat.album_for_id x = some info)
    (hval : validate_candidate P items [] info = [(info.album_id, t)])
    (hdist : t.dist < STRONG_REC_THRESH) :
    (config.interactive_autotag = false →
      tag_album P cat items config sa sal =
        ((current_metadata items).1, (current_metadata items).2.1,
          [t], Recommendation.strong)) ∧
    (config.interactive_autotag = true →
      t ∈ (tag_album P cat items config sa sal).2.2.1 ∧
      List.Sorted candLE (tag_album P cat items config sa sal).2.2.1) := by
  have hm2 : match_by_id cat items = some info := by
    rw [match_by_id_consensus cat items x hne hx hall, hlook]
  have hti : t.info = info ∧ t.info.tracks ≠ [] := by
    rcases validate_cases P items [] info with he | ⟨_, htr, ord, _, he⟩
    · rw [hval] at he
      simp at he
    · rw [hval] at he
      simp only [List.nil_append, List.cons.injEq, Prod.mk.injEq, and_true, true_and] at he
      rw [he]
      exact ⟨rfl, htr⟩
  have hrec : recommendation [t] = Recommendation.strong := by
    simp only [recommendation]
    rw [if_pos hdist]
  constructor
  · intro hcfg
    unfold tag_album
    simp only [hm2, hval]
    rw [if_pos ⟨by simp, by simpa [dictVals] using hrec, hcfg⟩]
    simp [dictVals, hrec]
  · intro hcfg
    unfold tag_album
    simp only [hm2, hval]
    rw [if_neg (by simp [hcfg])]
    have hinv : DictInv [(info.album_id, t)] := by
      refine ⟨List.nodup_singleton _, ?_⟩
      intro p hp
      simp only [List.mem_singleton] at hp
      subst hp
      rw [hti.1]
    have htrne : TracksNonempty [(info.album_id, t)] := by
      intro p hp
      simp only [List.mem_singleton] at hp
      subst hp
      exact hti.2
    have h := tag_album_search_props P cat items sa sal (current_metadata items).1
      (current_metadata items).2.1 (current_metadata items).2.2
      [(info.album_id, t)] hinv htrne
    exact ⟨h.2.2.1 (info.album_id, t) (by simp), h.1⟩

theorem tag_album_id_short_circuit_witness :
    ([itemW] ≠ []) ∧ ("X" ≠ ("" : String)) ∧ (∀ i ∈ [itemW], i.mb_albumid = "X") ∧
    (catW.album_for_id "X" = some infoW) ∧
    (validate_candidate noPlugins [itemW] [] infoW = [(infoW.album_id, tupleW)]) ∧
    (tupleW.dist < STRONG_REC_THRESH) ∧
    (tag_album noPlugins catW [itemW] ⟨false⟩ Option.none Option.none =
      ((current_metadata [itemW]).1, (current_metadata [itemW]).2.1,
        [tupleW], Recommendation.strong)) :=
  ⟨by with_unfolding_all decide, by with_unfolding_all decide, by with_unfolding_all decide,
   by with_unfolding_all decide, by with_unfolding_all decide, by with_unfolding_all decide,
   (tag_album_id_short_circuit noPlugins catW [itemW] ⟨false⟩ Option.none Option.none
      "X" infoW tupleW (by with_unfolding_all decide) (by with_unfolding_all decide)
      (by with_unfolding_all decide) (by with_unfolding_all decide)
      (by with_unfolding_all decide) (by with_unfolding_all decide)).1 rfl⟩

theorem zero_track_release_dropped_witness :
    order_items noPlugins [] [] = some [] ∧
    ((⟨"e", "", "", "", Option.none, Option.none, Option.none, "", false, []⟩ :
        AlbumInfo).tracks = []) ∧
    validate_candidate noPlugins [itemW] []
      ⟨"e", "", "", "", Option.none, Option.none, Option.none, "", false, []⟩ = [] ∧
    (tupleW ∈ (tag_album noPlugins catW [itemW] ⟨false⟩ Option.none Option.none).2.2.1 ∧
      tupleW.info.tracks ≠ []) :=
  ⟨zero_track_release_dropped.1 noPlugins, rfl,
   zero_track_release_dropped.2.1 noPlugins [itemW] []
     ⟨"e", "", "", "", Option.none, Option.none, Option.none, "", false, []⟩ rfl,
   by with_unfolding_all decide,
   zero_track_release_dropped.2.2 noPlugins catW [itemW] ⟨false⟩ Option.none Option.none
     tupleW (by with_unfolding_all decide)⟩

/-! ## First-match removal versus `re.sub` -/

theorem countMatchesGo_zero (r : Re) :
    ∀ (n : Nat) (s : List Char) (b : Bool),
    countMatchesGo r s b n = 0 → reSubGo r s b n = s := by
  intro n
  induction n with
  | zero => intro s b _; rfl
  | succ n ih =>
    intro s b hc
    simp only [countMatchesGo] at hc
    simp only [reSubGo]
    rcases hh : (reMatch r b s).head? with _ | pr <;>
      simp only [hh] at hc ⊢
    · cases s with
      | nil => rfl
      | cons c tl =>
        dsimp only at hc ⊢
        rw [ih tl false hc]
    · by_cases hlt : pr.2.length < s.length
      · rw [if_pos hlt] at hc
        omega
      · rw [if_neg hlt] at hc
        cases s with
        | nil => first | omega | (dsimp only at hc; omega)
        | cons c tl => first | omega | (dsimp only at hc; omega)

theorem reSubGo_eq_firstGo (r : Re) :
    ∀ (n : Nat) (s : List Char) (b : Bool), countMatchesGo r s b n ≤ 1 →
    reSubGo r s b n = reSubFirstGo r n s b := by
  intro n
  induction n with
  | zero =>
    intro s b _
    rfl
  | succ n ih =>
    intro s b hc
    simp only [countMatchesGo] at hc
    simp only [reSubGo, reSubFirstGo]
    rcases hh : (reMatch r b s).head? with _ | pr <;>
      simp only [hh] at hc ⊢
    · cases s with
      | nil => rfl
      | cons c tl =>
        dsimp only at hc ⊢
        rw [ih tl false hc]
    · by_cases hlt : pr.2.length < s.length
      · rw [if_pos hlt] at hc
        rw [if_pos hlt, if_pos hlt]
        have h0 : countMatchesGo r pr.2 false n = 0 := by omega
        exact countMatchesGo_zero r n pr.2 false h0
      · rw [if_neg hlt] at hc
        rw [if_neg hlt, if_neg hlt]
        cases s with
        | nil => rfl
        | cons c tl =>
          dsimp only at hc ⊢
          have h0 : countMatchesGo r tl false n = 0 := by omega
          rw [countMatchesGo_zero r n tl false h0]

/-- C7 counterexample: in step 4 of `string_dist` the trial string is
computed with `re.sub`, which removes every non-overlapping match, not
only the first: on `"x (a) y (b)"` the parenthetical pattern deletes
both groups, whereas first-match removal would retain `"(b)"`. -/
theorem sd_case_removes_all_matches_counterexample :
    (sdPat4, (3:ℚ)/10) ∈ SD_PATTERNS ∧
    reSubStr sdPat4 "x (a) y (b)" ≠ reSubFirstStr sdPat4 "x (a) y (b)" ∧
    reSubStr sdPat4 "x (a) y (b)" = "x  y " ∧
    reSubFirstStr sdPat4 "x (a) y (b)" = "x  y (b)" := by
  refine ⟨?_, ?_, ?_, ?_⟩ <;> with_unfolding_all decide

/-- C7 (amended): the trial strings of step 4 are the current strings
with every non-overlapping match of the pattern removed, scanning left
to right; this coincides with removing only the first match exactly
when the pattern matches at most once in the scan. -/
theorem sd_case_single_match_equals_first_removal :
    ∀ pw ∈ SD_PATTERNS, ∀ s : String, countMatchesStr pw.1 s ≤ 1 →
      reSubStr pw.1 s = reSubFirstStr pw.1 s := by
  intro pw _ s hc
  unfold reSubStr reSubFirstStr
  rw [reSubGo_eq_firstGo pw.1 (s.data.length + 1) s.data true hc]

theorem sd_case_single_match_equals_first_removal_witness :
    ((sdPat4, (3:ℚ)/10) ∈ SD_PATTERNS) ∧ countMatchesStr sdPat4 "x (a) y" ≤ 1 ∧
    reSubStr sdPat4 "x (a) y" = reSubFirstStr sdPat4 "x (a) y" :=
  ⟨by with_unfolding_all decide, by with_unfolding_all decide,
   sd_case_single_match_equals_first_removal (sdPat4, 3/10) (by with_unfolding_all decide)
     "x (a) y" (by with_unfolding_all decide)⟩

end Autotag
